import Mathlib

/-!
Verification of the archive-reader / validation core of the flip-dev-portal
repository (`src/api/index.js`, `src/lib/validate.js`).

The byte buffer handed to `parseZipContents` is modelled as a `List Nat`
(one element per byte).  Node's `Buffer.readUInt16LE` / `readUInt32LE`
throw a `RangeError` when the requested window exceeds the buffer, and the
surrounding `try` block of `parseZipContents` catches that throw, keeping
whatever was parsed so far; the fixed-width readers are therefore modelled
as `Option`-returning functions whose `none` result is routed to the same
partial-result continuation the catch produces.  `Buffer.prototype.toString`
clamps its `start`/`end` arguments to the buffer, which is modelled by
`bslice`.  File names are kept as UTF-8 byte sequences; the name tests the
source performs (`endsWith('/')`, equality with `'manifest.json'`, the
anchored regex `[^/]+\/manifest\.json`, `split('/')`, `startsWith`) are
delimiter tests on the ASCII byte `0x2f`, which commute with Node's UTF-8
decoding for names that are valid UTF-8 (`0x2f` never occurs inside a
multi-byte sequence, and the replacement character produced for invalid
bytes is neither `/` nor ASCII), so the byte-level model is faithful to
the string-level source there; names containing invalid UTF-8 are
compared as raw bytes where Node would compare their decodings.
-/

set_option maxRecDepth 10000

/-- Byte buffers and byte-string file names are lists of naturals. -/
abbrev Bytes := List Nat

/-- Model of `buffer.readUInt16LE i`: two little-endian bytes, `none` when
the two-byte window does not fit in the buffer (Node throws a caught
`RangeError` there). -/
def readU16 (b : Bytes) (i : Nat) : Option Nat :=
  if i + 2 ≤ b.length then some (b.getD i 0 + 256 * b.getD (i + 1) 0) else none

/-- Model of `buffer.readUInt32LE i`: four little-endian bytes, `none` when
the four-byte window does not fit in the buffer. -/
def readU32 (b : Bytes) (i : Nat) : Option Nat :=
  if i + 4 ≤ b.length then
    some (b.getD i 0 + 256 * b.getD (i + 1) 0 + 65536 * b.getD (i + 2) 0 +
      16777216 * b.getD (i + 3) 0)
  else none

/-- Model of `buffer.toString('utf-8', s, e)` at the byte level: the bytes
at indices `[s, e)`, with both bounds clamped to the buffer (Node clamps,
it does not throw). -/
def bslice (b : Bytes) (s e : Nat) : Bytes :=
  (b.take e).drop s

/-- Candidate offsets probed by the End-Of-Central-Directory scan of
`parseZipContents` (line 471): `i` from `buffer.length - 22` down to
`max 0 (buffer.length - 65557)`; when the buffer is shorter than 22 bytes
the loop body never runs. -/
def eocdCands (b : Bytes) : List Nat :=
  if b.length < 22 then []
  else (List.range' (b.length - 65557) (b.length - 22 + 1 - (b.length - 65557))).reverse

/-- Backward scan for the EOCD signature `0x06054b50` (lines 470-474). -/
def findEocd (b : Bytes) : Option Nat :=
  (eocdCands b).find? (fun i => readU32 b i == some 0x06054b50)

/-- UTF-8 bytes of the string `manifest.json`. -/
def mjBytes : Bytes := [109, 97, 110, 105, 102, 101, 115, 116, 46, 106, 115, 111, 110]

/-- Test of line 490: `fileName === 'manifest.json' ||
fileName.match(/^[^\/]+\/manifest\.json$/)`, on UTF-8 bytes (47 = `/`). -/
def isManifestPath (f : Bytes) : Bool :=
  f == mjBytes ||
    (!(f.takeWhile (fun c => c != 47)).isEmpty &&
      f.dropWhile (fun c => c != 47) == 47 :: mjBytes)

/-! ### Model of the `JSON.parse` builtin

`parseZipContents` stores the parsed manifest only when `JSON.parse(raw)`
returns without throwing, and the `!manifest` guard keeps scanning while
the stored value is falsy.  The builtin is modelled from its documented
grammar by a fuel-indexed syntax checker `jsonAccepts` over UTF-8 bytes,
plus `jsonFalsy` recognising the JSON texts whose value is falsy in
JavaScript (`null`, `false`, `""`, a number equal to zero). -/

/-- JSON whitespace bytes (space, tab, LF, CR). -/
def jWs (c : Nat) : Bool := c == 32 || c == 9 || c == 10 || c == 13

/-- Drop leading JSON whitespace. -/
def jSkipWs (l : Bytes) : Bytes := l.dropWhile jWs

/-- ASCII decimal digit byte. -/
def jDigit (c : Nat) : Bool := 48 ≤ c && c ≤ 57

/-- ASCII hexadecimal digit byte. -/
def jHex (c : Nat) : Bool :=
  jDigit c || (65 ≤ c && c ≤ 70) || (97 ≤ c && c ≤ 102)

/-- Consume the remainder of a JSON string literal (the opening quote is
already consumed); returns the bytes after the closing quote. -/
def jStr : Bytes → Option Bytes
  | [] => none
  | 34 :: r => some r
  | 92 :: 34 :: t => jStr t
  | 92 :: 92 :: t => jStr t
  | 92 :: 47 :: t => jStr t
  | 92 :: 98 :: t => jStr t
  | 92 :: 102 :: t => jStr t
  | 92 :: 110 :: t => jStr t
  | 92 :: 114 :: t => jStr t
  | 92 :: 116 :: t => jStr t
  | 92 :: 117 :: a :: b :: c :: d :: t =>
    if jHex a && jHex b && jHex c && jHex d then jStr t else none
  | 92 :: _ => none
  | c :: r => if 32 ≤ c then jStr r else none

/-- Consume an optional JSON exponent part. -/
def jExp : Bytes → Option Bytes
  | [] => some []
  | c :: t =>
    if c == 101 || c == 69 then
      match t with
      | [] => none
      | s :: t2 =>
        if s == 43 || s == 45 then
          match t2 with
          | [] => none
          | d :: t3 => if jDigit d then some (t3.dropWhile jDigit) else none
        else if jDigit s then some (t2.dropWhile jDigit) else none
    else some (c :: t)

/-- Consume an optional JSON fraction part, then the exponent. -/
def jFrac : Bytes → Option Bytes
  | 46 :: c :: t => if jDigit c then jExp (t.dropWhile jDigit) else none
  | 46 :: [] => none
  | l => jExp l

/-- Consume a JSON number. -/
def jNum (l : Bytes) : Option Bytes :=
  let l1 := match l with | 45 :: t => t | _ => l
  match l1 with
  | 48 :: t => jFrac t
  | c :: t => if 49 ≤ c && c ≤ 57 then jFrac (t.dropWhile jDigit) else none
  | [] => none

mutual

/-- Consume one JSON value (fuel-indexed; the fuel used by `jsonAccepts`
always suffices for the nesting depth of its input). -/
def jVal : Nat → Bytes → Option Bytes
  | 0, _ => none
  | fuel + 1, l =>
    match jSkipWs l with
    | 110 :: 117 :: 108 :: 108 :: r => some r
    | 116 :: 114 :: 117 :: 101 :: r => some r
    | 102 :: 97 :: 108 :: 115 :: 101 :: r => some r
    | 34 :: r => jStr r
    | 123 :: r => jObj fuel r
    | 91 :: r => jArr fuel r
    | l2 => jNum l2

/-- Consume the inside of a JSON object after `{`. -/
def jObj : Nat → Bytes → Option Bytes
  | 0, _ => none
  | fuel + 1, l =>
    match jSkipWs l with
    | 125 :: r => some r
    | 34 :: r =>
      match jStr r with
      | some r2 =>
        match jSkipWs r2 with
        | 58 :: r3 =>
          match jVal fuel r3 with
          | some r4 => jObjTail fuel r4
          | none => none
        | _ => none
      | none => none
    | _ => none

/-- Consume `, "key": value` repetitions and the closing `}`. -/
def jObjTail : Nat → Bytes → Option Bytes
  | 0, _ => none
  | fuel + 1, l =>
    match jSkipWs l with
    | 125 :: r => some r
    | 44 :: r =>
      match jSkipWs r with
      | 34 :: r1 =>
        match jStr r1 with
        | some r2 =>
          match jSkipWs r2 with
          | 58 :: r3 =>
            match jVal fuel r3 with
            | some r4 => jObjTail fuel r4
            | none => none
          | _ => none
        | none => none
      | _ => none
    | _ => none

/-- Consume the inside of a JSON array after `[`. -/
def jArr : Nat → Bytes → Option Bytes
  | 0, _ => none
  | fuel + 1, l =>
    match jSkipWs l with
    | 93 :: r => some r
    | l2 =>
      match jVal fuel l2 with
      | some r => jArrTail fuel r
      | none => none

/-- Consume `, value` repetitions and the closing `]`. -/
def jArrTail : Nat → Bytes → Option Bytes
  | 0, _ => none
  | fuel + 1, l =>
    match jSkipWs l with
    | 93 :: r => some r
    | 44 :: r =>
      match jVal fuel r with
      | some r2 => jArrTail fuel r2
      | none => none
    | _ => none

end

/-- Does `JSON.parse` accept the byte sequence (one value, possibly
surrounded by whitespace)? -/
def jsonAccepts (raw : Bytes) : Bool :=
  match jVal (2 * raw.length + 2) raw with
  | some r => (jSkipWs r).isEmpty
  | none => false

/-- Trim JSON whitespace at both ends. -/
def jTrimWs (l : Bytes) : Bytes :=
  ((jSkipWs l).reverse.dropWhile jWs).reverse

/-- Is the (already validated) JSON text a number equal to zero
(`0`, `-0`, `0.00`, `0e7`, ...)? -/
def isZeroNumB (l : Bytes) : Bool :=
  let l1 := match l with | 45 :: t => t | _ => l
  (match l1 with | c :: _ => jDigit c | [] => false) &&
    (l1.takeWhile (fun c => jDigit c || c == 46)).all (fun c => c == 48 || c == 46)

/-- JSON texts whose parsed value is falsy in JavaScript, so that the
`!manifest` guard of line 490 would keep scanning after capturing them. -/
def jsonFalsy (raw : Bytes) : Bool :=
  let t := jTrimWs raw
  t == [110, 117, 108, 108] || t == [102, 97, 108, 115, 101] ||
    t == [34, 34] || isZeroNumB t

/-- The manifest slot of `parseZipContents` ends up truthy exactly when
`JSON.parse` succeeds with a truthy value. -/
def jsonOkTruthy (raw : Bytes) : Bool :=
  jsonAccepts raw && !(jsonFalsy raw)

/-- State threaded through the central-directory loop of
`parseZipContents`: the captured manifest (the raw stored bytes whose
parse succeeded with a truthy value) and the accumulated file list. -/
structure ZipState where
  manifest : Option Bytes
  fileList : List Bytes
deriving DecidableEq, Repr

/-- The central-directory loop of `parseZipContents` (lines 479-508).
Fuel is the EOCD entry count; a signature mismatch breaks out of the loop
and a failed fixed-width read throws into the surrounding catch — both
return the state accumulated so far. -/
def walk (b : Bytes) : Nat → Nat → ZipState → ZipState
  | 0, _, st => st
  | n + 1, off, st =>
    match readU32 b off with
    | none => st
    | some sig =>
      if sig != 0x02014b50 then st
      else
        match readU16 b (off + 28), readU16 b (off + 30), readU16 b (off + 32),
            readU32 b (off + 42) with
        | some fnLen, some extraLen, some commentLen, some localOffset =>
          let fileName := bslice b (off + 46) (off + 46 + fnLen)
          let st1 : ZipState :=
            if fileName.getLast? == some 47 then st
            else { st with fileList := st.fileList ++ [fileName] }
          let nxt := off + 46 + fnLen + extraLen + commentLen
          if isManifestPath fileName && st.manifest.isNone then
            match readU32 b localOffset with
            | none => st1
            | some lsig =>
              if lsig == 0x04034b50 then
                match readU16 b (localOffset + 26), readU16 b (localOffset + 28),
                    readU16 b (localOffset + 8), readU32 b (localOffset + 18) with
                | some lfnLen, some lextraLen, some compMethod, some compSize =>
                  if compMethod == 0 then
                    let raw := bslice b (localOffset + 30 + lfnLen + lextraLen)
                      (localOffset + 30 + lfnLen + lextraLen + compSize)
                    if jsonOkTruthy raw then
                      walk b n nxt { st1 with manifest := some raw }
                    else walk b n nxt st1
                  else walk b n nxt st1
                | _, _, _, _ => st1
              else walk b n nxt st1
          else walk b n nxt st1
        | _, _, _, _ => st

/-- Path normalization of lines 514-521, at the byte level: when the file
list is non-empty, contains no entry equal to `manifest.json`, and every
entry starts with the first entry's first segment followed by `/`, strip
that prefix from every entry. -/
def normalizeBytesPaths (fl : List Bytes) : List Bytes :=
  match fl with
  | [] => []
  | f0 :: _ =>
    if fl.any (fun f => f == mjBytes) then fl
    else
      let pfx := f0.takeWhile (fun c => c != 47) ++ [47]
      if fl.all (fun f => pfx.isPrefixOf f) then fl.map (fun f => f.drop pfx.length)
      else fl

/-- The whole of `parseZipContents` (lines 463-523): locate the EOCD, read
the entry count and central-directory offset, walk the central directory,
then normalize the file list.  A missing EOCD (or an unreadable EOCD
field) is the thrown-and-caught path, yielding empty results. -/
def parseZipContents (b : Bytes) : Option Bytes × List Bytes :=
  let st : ZipState :=
    match findEocd b with
    | none => ⟨none, []⟩
    | some eocd =>
      match readU16 b (eocd + 10), readU32 b (eocd + 16) with
      | some cdEntries, some cdOffset => walk b cdEntries cdOffset ⟨none, []⟩
      | _, _ => ⟨none, []⟩
  (st.manifest, normalizeBytesPaths st.fileList)

/-- Number of central-directory entries actually processed by `walk` (an
entry at which the loop stops — signature mismatch, exhausted fuel, or a
throwing read — is not counted as a completed iteration). -/
def walkSteps (b : Bytes) : Nat → Nat → ZipState → Nat
  | 0, _, _ => 0
  | n + 1, off, st =>
    match readU32 b off with
    | none => 0
    | some sig =>
      if sig != 0x02014b50 then 0
      else
        match readU16 b (off + 28), readU16 b (off + 30), readU16 b (off + 32),
            readU32 b (off + 42) with
        | some fnLen, some extraLen, some commentLen, some localOffset =>
          let fileName := bslice b (off + 46) (off + 46 + fnLen)
          let st1 : ZipState :=
            if fileName.getLast? == some 47 then st
            else { st with fileList := st.fileList ++ [fileName] }
          let nxt := off + 46 + fnLen + extraLen + commentLen
          if isManifestPath fileName && st.manifest.isNone then
            match readU32 b localOffset with
            | none => 1
            | some lsig =>
              if lsig == 0x04034b50 then
                match readU16 b (localOffset + 26), readU16 b (localOffset + 28),
                    readU16 b (localOffset + 8), readU32 b (localOffset + 18) with
                | some lfnLen, some lextraLen, some compMethod, some compSize =>
                  if compMethod == 0 then
                    let raw := bslice b (localOffset + 30 + lfnLen + lextraLen)
                      (localOffset + 30 + lfnLen + lextraLen + compSize)
                    if jsonOkTruthy raw then
                      1 + walkSteps b n nxt { st1 with manifest := some raw }
                    else 1 + walkSteps b n nxt st1
                  else 1 + walkSteps b n nxt st1
                | _, _, _, _ => 1
              else 1 + walkSteps b n nxt st1
          else 1 + walkSteps b n nxt st1
        | _, _, _, _ => 0

/-- Scan of the central directory that returns what the manifest slot of
`walk` ends up holding when it starts out empty: the stored bytes of the
first name-matching entry whose local header has a valid signature,
compression method 0, and whose bytes `JSON.parse` accepts with a truthy
value; entries failing any of these are skipped and the scan continues. -/
def manifestScan (b : Bytes) : Nat → Nat → Option Bytes
  | 0, _ => none
  | n + 1, off =>
    match readU32 b off with
    | none => none
    | some sig =>
      if sig != 0x02014b50 then none
      else
        match readU16 b (off + 28), readU16 b (off + 30), readU16 b (off + 32),
            readU32 b (off + 42) with
        | some fnLen, some extraLen, some commentLen, some localOffset =>
          let fileName := bslice b (off + 46) (off + 46 + fnLen)
          let nxt := off + 46 + fnLen + extraLen + commentLen
          if isManifestPath fileName then
            match readU32 b localOffset with
            | none => none
            | some lsig =>
              if lsig == 0x04034b50 then
                match readU16 b (localOffset + 26), readU16 b (localOffset + 28),
                    readU16 b (localOffset + 8), readU32 b (localOffset + 18) with
                | some lfnLen, some lextraLen, some compMethod, some compSize =>
                  if compMethod == 0 then
                    let raw := bslice b (localOffset + 30 + lfnLen + lextraLen)
                      (localOffset + 30 + lfnLen + lextraLen + compSize)
                    if jsonOkTruthy raw then some raw
                    else manifestScan b n nxt
                  else manifestScan b n nxt
                | _, _, _, _ => none
              else manifestScan b n nxt
          else manifestScan b n nxt
        | _, _, _, _ => none

/-- The manifest `parseZipContents` returns, characterised without the
file-list bookkeeping: the first successfully stored-and-parsed matching
entry of the central directory. -/
def manifestAt (b : Bytes) : Option Bytes :=
  match findEocd b with
  | none => none
  | some eocd =>
    match readU16 b (eocd + 10), readU32 b (eocd + 16) with
    | some cdEntries, some cdOffset => manifestScan b cdEntries cdOffset
    | _, _ => none

/-- The first central-directory entry whose name matches the manifest
test of line 490, paired with the compression method its local file
header declares (`none` when the local signature is absent or the method
field is unreadable). -/
def firstMatch (b : Bytes) : Nat → Nat → Option (Bytes × Option Nat)
  | 0, _ => none
  | n + 1, off =>
    match readU32 b off with
    | none => none
    | some sig =>
      if sig != 0x02014b50 then none
      else
        match readU16 b (off + 28), readU16 b (off + 30), readU16 b (off + 32),
            readU32 b (off + 42) with
        | some fnLen, some extraLen, some commentLen, some localOffset =>
          let fileName := bslice b (off + 46) (off + 46 + fnLen)
          let nxt := off + 46 + fnLen + extraLen + commentLen
          if isManifestPath fileName then
            some (fileName,
              match readU32 b localOffset with
              | some lsig =>
                if lsig == 0x04034b50 then readU16 b (localOffset + 8) else none
              | none => none)
          else firstMatch b n nxt
        | _, _, _, _ => none

/-- The first name-matching central-directory entry of a buffer, located
through its EOCD record like `parseZipContents` does. -/
def firstMatchAt (b : Bytes) : Option (Bytes × Option Nat) :=
  match findEocd b with
  | none => none
  | some eocd =>
    match readU16 b (eocd + 10), readU32 b (eocd + 16) with
    | some cdEntries, some cdOffset => firstMatch b cdEntries cdOffset
    | _, _ => none

/-- Concrete 206-byte archive: two central-directory entries named
`a/manifest.json` and `b/manifest.json`; the first one's local header
declares compression method 8 (DEFLATE), the second one's declares
method 0 (STORED) with the two stored bytes `\x7b\x7d` (the JSON text of
an empty object). -/
def exBufC1 : Bytes :=
  [80, 75, 3, 4, 0, 0, 0, 0, 8, 0, 0, 0, 0, 0, 0, 0, 0, 0, 0, 0, 0, 0, 0, 0,
   0, 0, 0, 0, 0, 0, 80, 75, 3, 4, 0, 0, 0, 0, 0, 0, 0, 0, 0, 0, 0, 0, 0, 0,
   2, 0, 0, 0, 0, 0, 0, 0, 0, 0, 0, 0, 123, 125, 80, 75, 1, 2, 0, 0, 0, 0, 0,
   0, 0, 0, 0, 0, 0, 0, 0, 0, 0, 0, 0, 0, 0, 0, 0, 0, 0, 0, 15, 0, 0, 0, 0,
   0, 0, 0, 0, 0, 0, 0, 0, 0, 0, 0, 0, 0, 97, 47, 109, 97, 110, 105, 102,
   101, 115, 116, 46, 106, 115, 111, 110, 80, 75, 1, 2, 0, 0, 0, 0, 0, 0, 0,
   0, 0, 0, 0, 0, 0, 0, 0, 0, 0, 0, 0, 0, 0, 0, 0, 0, 15, 0, 0, 0, 0, 0, 0,
   0, 0, 0, 0, 0, 0, 0, 30, 0, 0, 0, 98, 47, 109, 97, 110, 105, 102, 101,
   115, 116, 46, 106, 115, 111, 110, 80, 75, 5, 6, 0, 0, 0, 0, 0, 0, 2, 0, 0,
   0, 0, 0, 62, 0, 0, 0, 0, 0]

/-! ### Byte-access instrumentation

Node's fixed-width readers bounds-check before touching memory (an
out-of-range request throws and touches nothing) and `toString` clamps its
range; the following functions record exactly which buffer indices each
primitive dereferences, and the trace functions replay the control flow of
`parseZipContents` while concatenating these records. -/

/-- Indices a successful `readUInt16LE i` dereferences (a failing one
throws before touching memory, so it records nothing). -/
def tr16 (b : Bytes) (i : Nat) : List Nat :=
  if i + 2 ≤ b.length then [i, i + 1] else []

/-- Indices a successful `readUInt32LE i` dereferences. -/
def tr32 (b : Bytes) (i : Nat) : List Nat :=
  if i + 4 ≤ b.length then [i, i + 1, i + 2, i + 3] else []

/-- Indices `toString('utf-8', s, e)` dereferences: `[s, e)` clamped to
the buffer. -/
def trSlice (b : Bytes) (s e : Nat) : List Nat :=
  List.range' s (min e b.length - s)

/-- Indices dereferenced by the backward EOCD signature scan: each probed
candidate is read until the signature is found. -/
def probeTrace (b : Bytes) : List Nat → List Nat
  | [] => []
  | i :: rest =>
    tr32 b i ++ (if readU32 b i == some 0x06054b50 then [] else probeTrace b rest)

mutual

/-- Indices dereferenced by the central-directory loop of
`parseZipContents`, following the same control flow as `walk`; a read
that fails (`none`) records nothing (the bounds check precedes the
access) and ends the loop. -/
def walkTrace (b : Bytes) : Nat → Nat → ZipState → List Nat
  | 0, _, _ => []
  | n + 1, off, st =>
    tr32 b off ++
      match readU32 b off with
      | none => []
      | some sig =>
        if sig != 0x02014b50 then []
        else
          tr16 b (off + 28) ++
            match readU16 b (off + 28) with
            | none => []
            | some fnLen =>
              tr16 b (off + 30) ++
                match readU16 b (off + 30) with
                | none => []
                | some extraLen =>
                  tr16 b (off + 32) ++
                    match readU16 b (off + 32) with
                    | none => []
                    | some commentLen =>
                      tr32 b (off + 42) ++
                        match readU32 b (off + 42) with
                        | none => []
                        | some localOffset =>
                          trSlice b (off + 46) (off + 46 + fnLen) ++
                            walkEntryTrace b n off st fnLen extraLen commentLen
                              localOffset

/-- Continuation of `walkTrace` for one entry once its central-directory
fields are read: the optional local-file-header reads, then the next
iteration. -/
def walkEntryTrace (b : Bytes) (n off : Nat) (st : ZipState)
    (fnLen extraLen commentLen localOffset : Nat) : List Nat :=
  let fileName := bslice b (off + 46) (off + 46 + fnLen)
  let st1 : ZipState :=
    if fileName.getLast? == some 47 then st
    else { st with fileList := st.fileList ++ [fileName] }
  let nxt := off + 46 + fnLen + extraLen + commentLen
  if isManifestPath fileName && st.manifest.isNone then
    tr32 b localOffset ++
      match readU32 b localOffset with
      | none => []
      | some lsig =>
        if lsig == 0x04034b50 then
          tr16 b (localOffset + 26) ++
            match readU16 b (localOffset + 26) with
            | none => []
            | some lfnLen =>
              tr16 b (localOffset + 28) ++
                match readU16 b (localOffset + 28) with
                | none => []
                | some lextraLen =>
                  tr16 b (localOffset + 8) ++
                    match readU16 b (localOffset + 8) with
                    | none => []
                    | some compMethod =>
                      tr32 b (localOffset + 18) ++
                        match readU32 b (localOffset + 18) with
                        | none => []
                        | some compSize =>
                          if compMethod == 0 then
                            let ds := localOffset + 30 + lfnLen + lextraLen
                            let raw := bslice b ds (ds + compSize)
                            trSlice b ds (ds + compSize) ++
                              (if jsonOkTruthy raw then
                                walkTrace b n nxt { st1 with manifest := some raw }
                              else walkTrace b n nxt st1)
                          else walkTrace b n nxt st1
        else walkTrace b n nxt st1
  else walkTrace b n nxt st1

end

/-- Every buffer index `parseZipContents` dereferences: the EOCD probes,
the EOCD entry-count and central-directory-offset fields, then the
central-directory walk. -/
def parseZipTrace (b : Bytes) : List Nat :=
  probeTrace b (eocdCands b) ++
    match findEocd b with
    | none => []
    | some eocd =>
      tr16 b (eocd + 10) ++
        match readU16 b (eocd + 10) with
        | none => []
        | some cdEntries =>
          tr32 b (eocd + 16) ++
            match readU32 b (eocd + 16) with
            | none => []
            | some cdOffset => walkTrace b cdEntries cdOffset ⟨none, []⟩

/-! ### The path normalizer on JavaScript strings (lines 514-521)

The claims about the Path Normalizer quantify over lists of path strings,
so the same source lines are also embedded over Lean `String`
(JavaScript's `split('/')[0]` is `takeWhile (· != '/')`, `startsWith` is
`List.isPrefixOf` on the character data, `slice(prefix.length)` is
`List.drop`). -/

/-- Characters of the first path segment of a string (everything before
the first `/`), as `split('/')[0]` computes it. -/
def firstSegData (s : String) : List Char :=
  s.data.takeWhile (fun c => c != '/')

/-- The path normalizer of `parseZipContents` (lines 514-521) on string
lists: when the list is non-empty, no entry equals `manifest.json`, and
every entry starts with the first entry's first segment followed by `/`,
strip that prefix from every entry; otherwise return the list unchanged. -/
def normalizePaths (l : List String) : List String :=
  match l with
  | [] => []
  | f0 :: _ =>
    if l.any (fun f => f == "manifest.json") then l
    else
      let pfx := firstSegData f0 ++ ['/']
      if l.all (fun f => pfx.isPrefixOf f.data) then
        l.map (fun f => String.mk (f.data.drop pfx.length))
      else l

/-- Rendering of claim C5's words: strip each entry's first path segment
(with its separator) exactly when no entry is literally `manifest.json`
and every entry's first path segment is identical to the first entry's. -/
def normalizePathsClaimed (l : List String) : List String :=
  match l with
  | [] => []
  | f0 :: _ =>
    if l.any (fun f => f == "manifest.json") then l
    else if l.all (fun f => firstSegData f == firstSegData f0) then
      l.map (fun f => String.mk (f.data.drop ((firstSegData f).length + 1)))
    else l

/-- Amended condition for C5: additionally each entry must actually
contain a separator (equivalently, each entry starts with the shared
first segment followed by `/`). -/
def normalizePathsAmended (l : List String) : List String :=
  match l with
  | [] => []
  | f0 :: _ =>
    if l.any (fun f => f == "manifest.json") then l
    else if l.all (fun f => firstSegData f == firstSegData f0 && f.data.contains '/') then
      l.map (fun f => String.mk (f.data.drop ((firstSegData f0).length + 1)))
    else l

/-! ### The validators (`src/lib/validate.js`)

Manifests reaching `validateManifest` come from `JSON.parse`; the claims
under verification only exercise manifests whose present fields are JSON
strings (or a string list for `permissions`), so the record below gives
each field an `Option` of that type.  JavaScript's falsiness test
`!manifest.f` on such a field is `none` or `some ""`.  The unreachable
`Array.isArray` failure branch of line 35 has no counterpart because a
`some` permissions field is always a list here. -/

/-- Manifest record handed to `validateManifest`. -/
structure Manifest where
  name : Option String := none
  version : Option String := none
  description : Option String := none
  author : Option String := none
  main : Option String := none
  type : Option String := none
  permissions : Option (List String) := none
deriving DecidableEq, Repr

/-- Result shape `{valid, errors, warnings}` of both validators. -/
structure ValidationResult where
  valid : Bool
  errors : List String
  warnings : List String
deriving DecidableEq, Repr

/-- JavaScript truthiness of an optional string field. -/
def isTruthyStr (o : Option String) : Bool :=
  match o with
  | some s => s != ""
  | none => false

/-- Permission whitelist of `validate.js` (lines 6-9). -/
def ALLOWED_PERMISSIONS : List String :=
  ["storage", "network", "tabs", "ai", "music",
   "popups", "cross_storage", "cross_storage_write"]

/-- Type whitelist of `validate.js` (line 16). -/
def ALLOWED_TYPES : List String := ["sidebar", "popup", "background"]

/-- Consume one or more leading decimal digits; models a `\d+` atom of
the anchored version regex (backtracking cannot help: after `\d+` the
regex demands a literal dot, which no digit matches, so the maximal run
is the only viable one). -/
def chompDigits (l : List Char) : Option (List Char) :=
  match l with
  | [] => none
  | c :: cs => if c.isDigit then some (cs.dropWhile Char.isDigit) else none

/-- The test `/^\d+\.\d+\.\d+$/.test(version)` of line 24. -/
def semverCheck (s : String) : Bool :=
  match chompDigits s.data with
  | some ('.' :: r1) =>
    match chompDigits r1 with
    | some ('.' :: r2) =>
      match chompDigits r2 with
      | some [] => true
      | _ => false
    | _ => false
  | _ => false

/-- Error message of line 23. -/
def nameErr : String := "Missing or invalid \"name\" field"

/-- Error message of line 24. -/
def versionErr : String := "Missing or invalid \"version\" (must be semver x.y.z)"

/-- Error message of line 25. -/
def descErr : String := "Missing or invalid \"description\" field"

/-- Error message of line 26. -/
def authorErr : String := "Missing or invalid \"author\" field"

/-- Error message of line 27. -/
def mainErr : String := "Missing or invalid \"main\" entry file"

/-- Error message of line 31 (dynamic part: the offending type). -/
def typeErr (t : String) : String :=
  "Invalid \"type\": " ++ t ++ ". Must be one of: " ++
    String.intercalate (", ") ALLOWED_TYPES

/-- Error message of line 39 (dynamic part: the unknown permissions). -/
def permErr (unknown : List String) : String :=
  "Unknown permissions: " ++ String.intercalate (", ") unknown

/-- Warning message of line 42. -/
def netWarn : String :=
  "Extension requests NETWORK access — can make external HTTP requests"

/-- Warning message of line 43. -/
def cswWarn : String :=
  "Extension requests CROSS_STORAGE_WRITE — can write to other extensions' storage"

/-- Warning message of line 44. -/
def tabsWarn : String :=
  "Extension requests TABS access — can open new browser tabs"

/-- Error message of line 49. -/
def nameLenErr : String := "Name must be 50 characters or less"

/-- Error message of line 50. -/
def descLenErr : String := "Description must be 300 characters or less"

/-- `validateManifest` (lines 18-53): all checks accumulate into `errors`
and `warnings` in source order; `valid` is `errors.length === 0`. -/
def validateManifest (m : Manifest) : ValidationResult :=
  let errors : List String :=
    (if isTruthyStr m.name then [] else [nameErr]) ++
    (if isTruthyStr m.version && semverCheck (m.version.getD ("")) then []
      else [versionErr]) ++
    (if isTruthyStr m.description then [] else [descErr]) ++
    (if isTruthyStr m.author then [] else [authorErr]) ++
    (if isTruthyStr m.main then [] else [mainErr]) ++
    (match m.type with
     | some t => if t != "" && !(ALLOWED_TYPES.contains t) then [typeErr t] else []
     | none => []) ++
    (match m.permissions with
     | some ps =>
       let unknown := ps.filter (fun p => !(ALLOWED_PERMISSIONS.contains p))
       if unknown.isEmpty then [] else [permErr unknown]
     | none => []) ++
    (if isTruthyStr m.name && (m.name.getD ("")).length > 50 then [nameLenErr]
      else []) ++
    (if isTruthyStr m.description && (m.description.getD ("")).length > 300 then
      [descLenErr] else [])
  let warnings : List String :=
    match m.permissions with
    | some ps =>
      (if ps.contains ("network") then [netWarn] else []) ++
      (if ps.contains ("cross_storage_write") then [cswWarn] else []) ++
      (if ps.contains ("tabs") then [tabsWarn] else [])
    | none => []
  ⟨errors.length == 0, errors, warnings⟩

/-- JavaScript's `String.prototype.endsWith` as a suffix test on
character data. -/
def sEndsWith (f suf : String) : Bool := suf.data.isSuffixOf f.data

/-- The forbidden-extension test of lines 66-70. -/
def isSuspicious (f : String) : Bool :=
  sEndsWith f (".exe") || sEndsWith f (".dll") || sEndsWith f (".bat") ||
    sEndsWith f (".cmd") || sEndsWith f (".sh") || sEndsWith f (".ps1") ||
    sEndsWith f (".node") || sEndsWith f (".wasm")

/-- `validateFiles` (lines 55-77). -/
def validateFiles (fileList : List String) : ValidationResult :=
  let hasManifest := fileList.any
    (fun f => f == "manifest.json" || sEndsWith f ("/manifest.json"))
  let hasMain := fileList.any
    (fun f => sEndsWith f (".jsx") || sEndsWith f (".js") || sEndsWith f (".html"))
  let suspicious := fileList.filter isSuspicious
  let errors : List String :=
    (if hasManifest then [] else ["Missing manifest.json in root of zip"]) ++
    (if hasMain then [] else ["No entry file found (.jsx, .js, or .html)"]) ++
    (if suspicious.isEmpty then []
      else ["Forbidden file types found: " ++ String.intercalate (", ") suspicious]) ++
    []
  let warnings : List String :=
    if fileList.length > 50 then
      ["Large extension: " ++ toString fileList.length ++ " files"]
    else []
  ⟨errors.length == 0, errors, warnings⟩

/-- Claim C4's side condition on a version string: three nonempty runs of
decimal digits separated by single dots, covering the whole string. -/
def SemverShape (s : String) : Prop :=
  ∃ a b c : List Char, s.data = a ++ '.' :: (b ++ '.' :: c) ∧
    a ≠ [] ∧ b ≠ [] ∧ c ≠ [] ∧
    (∀ x ∈ a, x.isDigit) ∧ (∀ x ∈ b, x.isDigit) ∧ (∀ x ∈ c, x.isDigit)

/-! ### The identifier generator (line 209 of `src/api/index.js`)

`(manifest.name || 'ext').toLowerCase().replace(/[^a-z0-9]+/g,
'-').replace(/(^-|-$)/g, '')`.  `toLowerCase` is modelled on the ASCII
range by `Char.toLower`; the global anchored trim `(^-|-$)` removes one
leading and one trailing hyphen. -/

/-- Character class `[a-z0-9]` of the slug regex. -/
def isSlugAlnum (c : Char) : Bool :=
  ('a' ≤ c && c ≤ 'z') || ('0' ≤ c && c ≤ '9')

mutual

/-- The global replace `[^a-z0-9]+ → '-'`: each maximal run of characters
outside `[a-z0-9]` becomes a single hyphen. -/
def collapseRuns : List Char → List Char
  | [] => []
  | c :: cs => if isSlugAlnum c then c :: collapseRuns cs else '-' :: afterRun cs

/-- Skip the rest of a non-alphanumeric run already replaced by `-`. -/
def afterRun : List Char → List Char
  | [] => []
  | c :: cs => if isSlugAlnum c then c :: collapseRuns cs else afterRun cs

end

/-- Remove a single leading hyphen (the `^-` alternative). -/
def dropLeadHyphen : List Char → List Char
  | [] => []
  | c :: t => if c = '-' then t else c :: t

/-- The replace `(^-|-$)/g → ''`: one leading and one trailing hyphen are
removed. -/
def trimJS (l : List Char) : List Char :=
  ((dropLeadHyphen l).reverse |> dropLeadHyphen).reverse

/-- Removal of all leading and trailing hyphens (the trim that claim C9
describes). -/
def trimHyphens (l : List Char) : List Char :=
  ((l.dropWhile (fun c => c == '-')).reverse.dropWhile (fun c => c == '-')).reverse

/-- `manifest.name || 'ext'`: the fallback for an absent or empty name. -/
def baseName (o : Option String) : String :=
  match o with
  | some s => if s == "" then "ext" else s
  | none => "ext"

/-- The identifier generator of line 209, as the source computes it. -/
def extIdOf (o : Option String) : String :=
  String.mk (trimJS (collapseRuns ((baseName o).data.map Char.toLower)))

/-- The identifier generator as claim C9 describes it: lower-case,
collapse maximal non-alphanumeric runs to single hyphens, trim all
leading and trailing hyphens. -/
def slugifySpec (o : Option String) : String :=
  String.mk (trimHyphens (collapseRuns ((baseName o).data.map Char.toLower)))

/-- Manifest with valid string fields everywhere and the given version,
used to exercise the version check in isolation. -/
def mV (v : String) : Manifest :=
  { name := some ("A"), version := some v, description := some ("d"),
    author := some ("a"), main := some ("m") }

/-! ## Helper lemmas -/

theorem takeWhile_all_append {α : Type} (p : α → Bool) (l₁ l₂ : List α)
    (h : ∀ c ∈ l₁, p c = true) :
    (l₁ ++ l₂).takeWhile p = l₁ ++ l₂.takeWhile p := by
  induction l₁ with
  | nil => simp
  | cons c t ih =>
    simp only [List.cons_append, List.takeWhile_cons_of_pos (h c (by simp))]
    rw [ih (fun x hx => h x (by simp [hx]))]

theorem dropWhile_all_append {α : Type} (p : α → Bool) (l₁ l₂ : List α)
    (h : ∀ c ∈ l₁, p c = true) :
    (l₁ ++ l₂).dropWhile p = l₂.dropWhile p := by
  induction l₁ with
  | nil => simp
  | cons c t ih =>
    simp only [List.cons_append, List.dropWhile_cons_of_pos (h c (by simp))]
    exact ih (fun x hx => h x (by simp [hx]))

/-! ## C8 — `validateFiles` accumulates all errors -/

/-- C8: on `["manifest.json", "main.exe"]` the file validator is invalid
and reports both the forbidden-file error naming `main.exe` and the
missing-entry-point error at the same time. -/
theorem c8_validateFiles_accumulates :
    (validateFiles ["manifest.json", "main.exe"]).valid = false ∧
    ("No entry file found (.jsx, .js, or .html)") ∈
      (validateFiles ["manifest.json", "main.exe"]).errors ∧
    ("Forbidden file types found: main.exe") ∈
      (validateFiles ["manifest.json", "main.exe"]).errors := by decide

/-! ## C10 — `valid` is exactly emptiness of `errors` -/

/-- C10: for both validators the `valid` flag is true exactly when the
errors list is empty (warnings are a separate list and cannot affect
it). -/
theorem c10_valid_iff_errors_empty :
    ∀ (m : Manifest) (l : List String),
      ((validateManifest m).valid = true ↔ (validateManifest m).errors = []) ∧
      ((validateFiles l).valid = true ↔ (validateFiles l).errors = []) := by
  intro m l
  constructor
  · show ((validateManifest m).errors.length == 0) = true ↔ _
    simp [List.length_eq_zero]
  · show ((validateFiles l).errors.length == 0) = true ↔ _
    simp [List.length_eq_zero]

/-! ## C6 — missing EOCD degrades to empty results -/

/-- C6: when the EOCD signature occurs nowhere in the backward-scanned
window, `parseZipContents` returns no manifest and an empty file list
instead of propagating the internal failure. -/
theorem c6_no_eocd_empty_result (b : Bytes)
    (h : ∀ i ∈ eocdCands b, readU32 b i ≠ some 0x06054b50) :
    parseZipContents b = (none, []) := by
  have hfind : findEocd b = none := by
    apply List.find?_eq_none.2
    intro i hi
    simpa using h i hi
  simp [parseZipContents, hfind, normalizeBytesPaths]

/-- Witness for C6 at the empty buffer. -/
theorem c6_witness : parseZipContents [] = (none, []) :=
  c6_no_eocd_empty_result [] (by decide)

/-! ## C3 — the path normalizer is not idempotent in general -/

/-- C3 counterexample: on `["a/a/x"]` one application strips one `a/`,
a second application strips another, so twice differs from once. -/
theorem c3_counterexample :
    normalizePaths (normalizePaths [("a/a/x" : String)]) ≠
      normalizePaths [("a/a/x" : String)] := by decide

/-- C3 amended: normalization is idempotent on every list whose
once-normalized form contains an entry literally equal to
`manifest.json` (in particular whenever a stripped top-level folder
contained the manifest). -/
theorem c3_amended_idempotent_with_manifest :
    ∀ l : List String, ("manifest.json") ∈ normalizePaths l →
      normalizePaths (normalizePaths l) = normalizePaths l := by
  intro l h
  generalize hm : normalizePaths l = m at h ⊢
  cases m with
  | nil => rfl
  | cons f0 rest =>
    have hany : ((f0 :: rest).any fun f => f == "manifest.json") = true :=
      List.any_eq_true.2 ⟨_, h, by simp⟩
    simp [normalizePaths, hany]

/-- Witness for C3 on the nested-folder example. -/
theorem c3_witness :
    normalizePaths (normalizePaths ["myext/manifest.json", "myext/main.js"]) =
      normalizePaths ["myext/manifest.json", "myext/main.js"] :=
  c3_amended_idempotent_with_manifest _ (by decide)

/-! ## C5 — the strip condition is `startsWith`, not segment equality -/

/-- C5 counterexample: on `["ext", "ext"]` no entry is `manifest.json`
and all first segments are identical, so the claim demands stripping
(yielding `["", ""]`), but the code leaves the list unchanged because no
entry continues with a separator. -/
theorem c5_counterexample :
    normalizePathsClaimed ["ext", "ext"] = ["", ""] ∧
      normalizePaths ["ext", "ext"] = ["ext", "ext"] := by decide

/-- Pointwise equal predicates give equal `all`. -/
theorem all_congr_eq {α : Type} (l : List α) (p q : α → Bool)
    (h : ∀ x ∈ l, p x = q x) : l.all p = l.all q := by
  induction l with
  | nil => rfl
  | cons a t ih =>
    simp only [List.all_cons, h a (by simp)]
    rw [ih (fun x hx => h x (by simp [hx]))]

/-- A list is a Boolean prefix of itself followed by anything. -/
theorem isPrefixOf_self_append {α : Type} [BEq α] [LawfulBEq α] (x r : List α) :
    x.isPrefixOf (x ++ r) = true := by
  induction x with
  | nil => simp [List.isPrefixOf]
  | cons a t ih => simp [List.isPrefixOf, ih]

/-- A Boolean prefix is a genuine prefix. -/
theorem isPrefixOf_exists {α : Type} [BEq α] [LawfulBEq α] :
    ∀ (x d : List α), x.isPrefixOf d = true → ∃ t, d = x ++ t := by
  intro x
  induction x with
  | nil => intro d _; exact ⟨d, rfl⟩
  | cons a as ih =>
    intro d h
    cases d with
    | nil => simp [List.isPrefixOf] at h
    | cons b bs =>
      rw [show (a :: as : List α).isPrefixOf (b :: bs) =
          (a == b && as.isPrefixOf bs) from rfl, Bool.and_eq_true] at h
      obtain ⟨t, ht⟩ := ih bs h.2
      exact ⟨t, by simp [ht, eq_of_beq h.1]⟩

/-- The source's strip condition `startsWith(firstSeg + '/')` holds for a
path exactly when the path's own first segment equals the reference
segment and the path actually contains a separator. -/
theorem c5_strip_condition_iff (seg d : List Char)
    (hseg : ∀ c ∈ seg, (c != '/') = true) :
    ((d.takeWhile (fun c => c != '/') == seg) && d.contains ('/')) =
      (seg ++ ['/']).isPrefixOf d := by
  rcases hb : (seg ++ ['/']).isPrefixOf d with _ | _
  · -- prefix test false: show the conjunction is false
    rw [Bool.eq_false_iff]
    intro hand
    rw [Bool.and_eq_true] at hand
    obtain ⟨htw, hcontains⟩ := hand
    have htw2 : d.takeWhile (fun c : Char => c != '/') = seg := by simpa using htw
    have hsplit := List.takeWhile_append_dropWhile (fun c : Char => c != '/') d
    have hmem : ('/') ∈ d := by simpa [List.elem_iff] using hcontains
    have hne : d.dropWhile (fun c : Char => c != '/') ≠ [] := by
      intro he
      have hd3 : d.takeWhile (fun c : Char => c != '/') = d := by
        have h5 := List.takeWhile_append_dropWhile (fun c : Char => c != '/') d
        rw [he, List.append_nil] at h5
        exact h5
      have hmem2 : ('/' : Char) ∈ d.takeWhile (fun c : Char => c != '/') := by
        rw [hd3]; exact hmem
      have h6 := List.mem_takeWhile_imp hmem2
      simp at h6
    cases hdrop : d.dropWhile (fun c : Char => c != '/') with
    | nil => exact hne hdrop
    | cons c rest =>
      have hc : (c != '/') = false := by
        have h7 := List.head_dropWhile_not (fun c : Char => c != '/') d
          (by simp [hdrop])
        simpa [hdrop] using h7
      have hc2 : c = '/' := by simpa using hc
      have hd2 : d = (seg ++ ['/']) ++ rest := by
        rw [← hsplit, htw2, hdrop, hc2]
        simp
      rw [hd2, isPrefixOf_self_append] at hb
      cases hb
  · -- prefix test true: d = seg ++ '/' :: t
    obtain ⟨t, ht⟩ := isPrefixOf_exists (seg ++ ['/']) d hb
    rw [List.append_assoc, List.singleton_append] at ht
    subst ht
    have h1 : (seg ++ '/' :: t).takeWhile (fun c : Char => c != '/') = seg := by
      rw [takeWhile_all_append (fun c : Char => c != '/') seg ('/' :: t) hseg]
      simp
    rw [h1]
    simp [List.elem_iff]

/-- C5 amended: the normalizer strips exactly when no entry is literally
`manifest.json`, every entry's first segment equals the first entry's,
and every entry actually contains a separator; the claim's own example
still holds. -/
theorem c5_amended_strip_condition :
    (∀ l, normalizePathsAmended l = normalizePaths l) ∧
      normalizePaths ["myext/manifest.json", "myext/main.js"] =
        ["manifest.json", "main.js"] := by
  refine ⟨?_, by decide⟩
  intro l
  cases l with
  | nil => rfl
  | cons f0 rest =>
    unfold normalizePathsAmended normalizePaths
    cases hany : ((f0 :: rest).any fun f => f == "manifest.json") with
    | true => simp [hany]
    | false =>
      simp only [Bool.false_eq_true, if_false]
      have hseg : ∀ c ∈ firstSegData f0, (c != '/') = true := by
        intro c hc
        have hc2 : c ∈ f0.data.takeWhile (fun x : Char => x != '/') := hc
        have h8 := List.mem_takeWhile_imp hc2
        simpa using h8
      have hcond : ((f0 :: rest).all fun f =>
          firstSegData f == firstSegData f0 && f.data.contains ('/'))
          = ((f0 :: rest).all fun f =>
            (firstSegData f0 ++ ['/']).isPrefixOf f.data) := by
        apply all_congr_eq
        intro f _
        exact c5_strip_condition_iff (firstSegData f0) f.data hseg
      have hlen : (firstSegData f0 ++ ['/']).length = (firstSegData f0).length + 1 := by
        simp
      simp only [hcond, hlen]

/-! ## C9 — the identifier generator -/

/-- No adjacent pair of hyphens occurs in the list. -/
def NoAdjHyphens (l : List Char) : Prop :=
  List.Chain' (fun a b => ¬(a = '-' ∧ b = '-')) l

/-- Alphanumeric slug characters are not hyphens. -/
theorem alnum_ne_hyphen {c : Char} (h : isSlugAlnum c = true) : c ≠ '-' := by
  intro he
  subst he
  exact absurd h (by decide)

/-- Collapsing runs never produces two adjacent hyphens, and the
run-skipping continuation resumes at an alphanumeric character. -/
theorem collapseRuns_chain :
    ∀ l : List Char, NoAdjHyphens (collapseRuns l) ∧ NoAdjHyphens (afterRun l) ∧
      (∀ c, (afterRun l).head? = some c → isSlugAlnum c = true) := by
  intro l
  induction l with
  | nil =>
    refine ⟨?_, ?_, ?_⟩ <;> simp [collapseRuns, afterRun, NoAdjHyphens]
  | cons c cs ih =>
    obtain ⟨ih1, ih2, ih3⟩ := ih
    by_cases hc : isSlugAlnum c = true
    · refine ⟨?_, ?_, ?_⟩
      · rw [show collapseRuns (c :: cs) = c :: collapseRuns cs from by
          simp [collapseRuns, hc]]
        exact List.chain'_cons'.2
          ⟨fun y _ hpair => alnum_ne_hyphen hc hpair.1, ih1⟩
      · rw [show afterRun (c :: cs) = c :: collapseRuns cs from by
          simp [afterRun, hc]]
        exact List.chain'_cons'.2
          ⟨fun y _ hpair => alnum_ne_hyphen hc hpair.1, ih1⟩
      · intro d hd
        rw [show afterRun (c :: cs) = c :: collapseRuns cs from by
          simp [afterRun, hc]] at hd
        simp only [List.head?_cons, Option.some.injEq] at hd
        rw [← hd]
        exact hc
    · refine ⟨?_, ?_, ?_⟩
      · rw [show collapseRuns (c :: cs) = '-' :: afterRun cs from by
          simp [collapseRuns, hc]]
        apply List.chain'_cons'.2
        refine ⟨?_, ih2⟩
        intro y hy hpair
        exact alnum_ne_hyphen (ih3 y hy) hpair.2
      · rw [show afterRun (c :: cs) = afterRun cs from by simp [afterRun, hc]]
        exact ih2
      · rw [show afterRun (c :: cs) = afterRun cs from by simp [afterRun, hc]]
        exact ih3

/-- On a list without adjacent hyphens, dropping all leading hyphens is
dropping at most one. -/
theorem dropWhile_eq_dropLead {l : List Char} (h : NoAdjHyphens l) :
    l.dropWhile (fun c => c == '-') = dropLeadHyphen l := by
  cases l with
  | nil => rfl
  | cons c t =>
    by_cases hc : c = '-'
    · subst hc
      rw [show dropLeadHyphen ('-' :: t) = t from by simp [dropLeadHyphen]]
      rw [List.dropWhile_cons_of_pos (by simp)]
      cases t with
      | nil => rfl
      | cons d t2 =>
        have hR := (List.chain'_cons.1 h).1
        have hd : ¬(d = '-') := fun he => hR ⟨rfl, he⟩
        rw [List.dropWhile_cons_of_neg (by simpa using hd)]
    · rw [show dropLeadHyphen (c :: t) = c :: t from by simp [dropLeadHyphen, hc]]
      rw [List.dropWhile_cons_of_neg (by simpa using hc)]

/-- Reversal preserves the no-adjacent-hyphens property. -/
theorem noAdj_reverse {l : List Char} (h : NoAdjHyphens l) :
    NoAdjHyphens l.reverse := by
  unfold NoAdjHyphens at h ⊢
  rw [List.chain'_reverse]
  exact List.Chain'.imp (fun a b hab hpair => hab ⟨hpair.2, hpair.1⟩) h

/-- Dropping one leading hyphen preserves the no-adjacent-hyphens
property. -/
theorem noAdj_dropLead {l : List Char} (h : NoAdjHyphens l) :
    NoAdjHyphens (dropLeadHyphen l) := by
  cases l with
  | nil => exact h
  | cons c t =>
    by_cases hc : c = '-'
    · subst hc
      rw [show dropLeadHyphen ('-' :: t) = t from by simp [dropLeadHyphen]]
      exact (List.chain'_cons'.1 h).2
    · rw [show dropLeadHyphen (c :: t) = c :: t from by simp [dropLeadHyphen, hc]]
      exact h

/-- On collapse output the source's one-hyphen trim equals the trim of
all leading and trailing hyphens. -/
theorem trimJS_eq_trimHyphens {l : List Char} (h : NoAdjHyphens l) :
    trimJS l = trimHyphens l := by
  unfold trimJS trimHyphens
  rw [dropWhile_eq_dropLead h]
  rw [dropWhile_eq_dropLead (noAdj_reverse (noAdj_dropLead h))]

/-- C9: the identifier generator is the pure pipeline the claim
describes — lower-case with `ext` fallback, collapse maximal
non-alphanumeric runs to one hyphen, trim leading and trailing
hyphens — and maps the claim's two examples accordingly. -/
theorem c9_slugification :
    (∀ o : Option String, extIdOf o = slugifySpec o) ∧
      extIdOf (some ("My Cool Ext!!")) = "my-cool-ext" ∧
      extIdOf (some ("---Ext---")) = "ext" := by
  refine ⟨?_, by decide, by decide⟩
  intro o
  unfold extIdOf slugifySpec
  congr 1
  exact trimJS_eq_trimHyphens (collapseRuns_chain _).1

/-! ## C1 — which entry supplies the manifest -/

/-- Pushing (or not pushing) a file name never changes the manifest
component of the loop state. -/
theorem ite_mk_manifest (c : Prop) [Decidable c] (m : Option Bytes)
    (f1 f2 : List Bytes) :
    (if c then ZipState.mk m f1 else ZipState.mk m f2).manifest = m := by
  split <;> rfl

/-- A state whose manifest is already captured keeps it: the guard
`!manifest` of line 490 prevents every later overwrite. -/
theorem walk_manifest_stays (b : Bytes) :
    ∀ (n off : Nat) (st : ZipState) (m : Bytes), st.manifest = some m →
      (walk b n off st).manifest = some m := by
  intro n
  induction n with
  | zero => intro off st m hm; simpa [walk] using hm
  | succ n ih =>
    intro off st m hm
    unfold walk
    cases hr : readU32 b off with
    | none => simpa using hm
    | some sig =>
      by_cases hs : sig = 0x02014b50
      · subst hs
        simp only [bne_self_eq_false, Bool.false_eq_true, if_false]
        cases h1 : readU16 b (off + 28) with
        | none => simpa using hm
        | some fnLen =>
          cases h2 : readU16 b (off + 30) with
          | none => simpa using hm
          | some extraLen =>
            cases h3 : readU16 b (off + 32) with
            | none => simpa using hm
            | some commentLen =>
              cases h4 : readU32 b (off + 42) with
              | none => simpa using hm
              | some localOffset =>
                simp only [hm, Option.isNone_some, Bool.and_false,
                  Bool.false_eq_true, if_false]
                apply ih
                split <;> simp [hm]
      · have hs2 : (sig != 0x02014b50) = true := by simpa [bne_iff_ne] using hs
        simpa [hs2] using hm

/-- Starting with no captured manifest, the walk's manifest component is
exactly the first-successful-entry scan. -/
theorem walk_manifest_none (b : Bytes) :
    ∀ (n off : Nat) (fl : List Bytes),
      (walk b n off ⟨none, fl⟩).manifest = manifestScan b n off := by
  intro n
  induction n with
  | zero => intro off fl; rfl
  | succ n ih =>
    intro off fl
    have ihst : ∀ (o : Nat) (st : ZipState), st.manifest = none →
        (walk b n o st).manifest = manifestScan b n o := by
      intro o st hst
      cases st with
      | mk ms fls =>
        cases hst
        exact ih o fls
    unfold walk manifestScan
    cases hr : readU32 b off with
    | none => rfl
    | some sig =>
      by_cases hs : sig = 0x02014b50
      · subst hs
        simp only [bne_self_eq_false, Bool.false_eq_true, if_false]
        cases h1 : readU16 b (off + 28) with
        | none => rfl
        | some fnLen =>
          cases h2 : readU16 b (off + 30) with
          | none => rfl
          | some extraLen =>
            cases h3 : readU16 b (off + 32) with
            | none => rfl
            | some commentLen =>
              cases h4 : readU32 b (off + 42) with
              | none => rfl
              | some localOffset =>
                simp only [Option.isNone_none, Bool.and_true]
                by_cases hmp : isManifestPath (bslice b (off + 46) (off + 46 + fnLen)) = true
                · simp only [hmp, if_true, Bool.true_eq]
                  cases h5 : readU32 b localOffset with
                  | none => exact ite_mk_manifest _ _ _ _
                  | some lsig =>
                    by_cases hl : lsig = 0x04034b50
                    · subst hl
                      simp only [beq_self_eq_true, if_true]
                      cases h6 : readU16 b (localOffset + 26) with
                      | none => exact ite_mk_manifest _ _ _ _
                      | some lfnLen =>
                        cases h7 : readU16 b (localOffset + 28) with
                        | none => exact ite_mk_manifest _ _ _ _
                        | some lextraLen =>
                          cases h8 : readU16 b (localOffset + 8) with
                          | none => exact ite_mk_manifest _ _ _ _
                          | some compMethod =>
                            cases h9 : readU32 b (localOffset + 18) with
                            | none => exact ite_mk_manifest _ _ _ _
                            | some compSize =>
                              by_cases hc : compMethod = 0
                              · subst hc
                                simp only [beq_self_eq_true, if_true]
                                by_cases hj : jsonOkTruthy (bslice b
                                    (localOffset + 30 + lfnLen + lextraLen)
                                    (localOffset + 30 + lfnLen + lextraLen + compSize)) = true
                                · simp only [hj, if_true]
                                  apply walk_manifest_stays
                                  rfl
                                · simp only [hj, Bool.false_eq_true, if_false]
                                  exact ihst _ _ (ite_mk_manifest _ _ _ _)
                              · have hc2 : (compMethod == 0) = false := by
                                  simpa using hc
                                simp only [hc2, Bool.false_eq_true, if_false]
                                exact ihst _ _ (ite_mk_manifest _ _ _ _)
                    · have hl2 : (lsig == 0x04034b50) = false := by simpa using hl
                      simp only [hl2, Bool.false_eq_true, if_false]
                      exact ihst _ _ (ite_mk_manifest _ _ _ _)
                · simp only [hmp, Bool.false_eq_true, if_false]
                  exact ihst _ _ (ite_mk_manifest _ _ _ _)
      · have hs2 : (sig != 0x02014b50) = true := by simpa [bne_iff_ne] using hs
        simp [hs2]

/-- C1 amended: the manifest `parseZipContents` returns is exactly the
one of the first matching central-directory entry whose local header is
valid, STORED, and whose bytes parse as truthy JSON; a matching entry
failing any of these (for example a DEFLATE one) contributes nothing,
and later matching entries are still consulted. -/
theorem c1_amended_first_successful_entry :
    ∀ b : Bytes, (parseZipContents b).1 = manifestAt b := by
  intro b
  cases he : findEocd b with
  | none => simp [parseZipContents, manifestAt, he]
  | some eocd =>
    cases h1 : readU16 b (eocd + 10) with
    | none => simp [parseZipContents, manifestAt, he, h1]
    | some cdEntries =>
      cases h2 : readU32 b (eocd + 16) with
      | none => simp [parseZipContents, manifestAt, he, h1, h2]
      | some cdOffset =>
        simp only [parseZipContents, manifestAt, he, h1, h2]
        simpa using walk_manifest_none b cdEntries cdOffset []

/-! ## C2 — every buffer access is in bounds -/

/-- A two-byte read only touches indices below the buffer length. -/
theorem mem_tr16_lt {b : Bytes} {j i : Nat} (h : i ∈ tr16 b j) : i < b.length := by
  unfold tr16 at h
  split at h
  · simp only [List.mem_cons, List.not_mem_nil, or_false] at h
    omega
  · simp at h

/-- A four-byte read only touches indices below the buffer length. -/
theorem mem_tr32_lt {b : Bytes} {j i : Nat} (h : i ∈ tr32 b j) : i < b.length := by
  unfold tr32 at h
  split at h
  · simp only [List.mem_cons, List.not_mem_nil, or_false] at h
    omega
  · simp at h

/-- A clamped `toString` only touches indices below the buffer length. -/
theorem mem_trSlice_lt {b : Bytes} {s e i : Nat} (h : i ∈ trSlice b s e) :
    i < b.length := by
  unfold trSlice at h
  rw [List.mem_range'_1] at h
  have := Nat.min_le_right e b.length
  omega

/-- Every index the EOCD backward scan touches is below the buffer
length. -/
theorem mem_probeTrace_lt (b : Bytes) :
    ∀ (c : List Nat) (i : Nat), i ∈ probeTrace b c → i < b.length := by
  intro c
  induction c with
  | nil => intro i h; simp [probeTrace] at h
  | cons j rest ih =>
    intro i h
    unfold probeTrace at h
    rcases List.mem_append.1 h with h | h
    · exact mem_tr32_lt h
    · split at h
      · simp at h
      · exact ih i h

/-- Every index the per-entry local-file-header processing touches is
below the buffer length, provided the continuation of the loop is also
bounded. -/
theorem mem_walkEntryTrace_lt (b : Bytes) (n : Nat)
    (hA : ∀ (off : Nat) (st : ZipState) (i : Nat),
      i ∈ walkTrace b n off st → i < b.length) :
    ∀ (off : Nat) (st : ZipState) (f e c lo i : Nat),
      i ∈ walkEntryTrace b n off st f e c lo → i < b.length := by
  intro off st f e c lo i h
  unfold walkEntryTrace at h
  dsimp only at h
  repeat'
    first
      | (exact mem_tr16_lt h)
      | (exact mem_tr32_lt h)
      | (exact mem_trSlice_lt h)
      | (exact hA _ _ _ h)
      | (rcases List.mem_append.1 h with h | h)
      | (split at h)
      | (simp at h)

/-- Every index the central-directory walk touches is below the buffer
length. -/
theorem mem_walkTrace_lt (b : Bytes) :
    ∀ (n off : Nat) (st : ZipState) (i : Nat),
      i ∈ walkTrace b n off st → i < b.length := by
  intro n
  induction n with
  | zero => intro off st i h; simp [walkTrace] at h
  | succ n ih =>
    intro off st i h
    unfold walkTrace at h
    repeat'
      first
        | (exact mem_tr16_lt h)
        | (exact mem_tr32_lt h)
        | (exact mem_trSlice_lt h)
        | (exact mem_walkEntryTrace_lt b n ih _ _ _ _ _ _ _ h)
        | (rcases List.mem_append.1 h with h | h)
        | (split at h)
        | (simp at h)

/-- C2: every buffer index `parseZipContents` dereferences — including
those derived from adversarial entry counts, offsets and length fields —
is strictly below the buffer length; a length that would point past the
end either fails its bounds check before any access (the caught throw)
or is clamped. -/
theorem c2_all_accesses_in_bounds :
    ∀ (b : Bytes) (i : Nat), i ∈ parseZipTrace b → i < b.length := by
  intro b i h
  unfold parseZipTrace at h
  repeat'
    first
      | (exact mem_probeTrace_lt b _ i h)
      | (exact mem_tr16_lt h)
      | (exact mem_tr32_lt h)
      | (exact mem_walkTrace_lt b _ _ _ _ h)
      | (rcases List.mem_append.1 h with h | h)
      | (split at h)
      | (simp at h)

/-- Witness for C2: on a 22-byte buffer the EOCD scan really probes
index 0, and the theorem places it inside the buffer. -/
theorem c2_witness : 0 < (List.replicate 22 (0 : Nat)).length :=
  c2_all_accesses_in_bounds (List.replicate 22 (0 : Nat)) 0 (by decide)

/-! ## C4 — the version regex accepts exactly three digit runs -/

/-- A nonempty all-digit run followed by a non-digit (or nothing) is
consumed exactly by `chompDigits`. -/
theorem chompDigits_some_of (a r : List Char) (ha : a ≠ [])
    (had : ∀ x ∈ a, x.isDigit = true)
    (hr : ∀ c, r.head? = some c → c.isDigit = false) :
    chompDigits (a ++ r) = some r := by
  cases a with
  | nil => exact absurd rfl ha
  | cons c t =>
    have hc : c.isDigit = true := had c (by simp)
    simp only [List.cons_append, chompDigits, hc, if_true]
    rw [dropWhile_all_append Char.isDigit t r (fun x hx => had x (by simp [hx]))]
    cases r with
    | nil => rfl
    | cons y ys =>
      simp [List.dropWhile_cons_of_neg
        (by simp [hr y rfl] : ¬Char.isDigit y = true)]

/-- Whatever `chompDigits` consumes is a nonempty all-digit run. -/
theorem chompDigits_some_inv (l r : List Char) (h : chompDigits l = some r) :
    ∃ a, a ≠ [] ∧ (∀ x ∈ a, x.isDigit = true) ∧ l = a ++ r := by
  cases l with
  | nil => simp [chompDigits] at h
  | cons c cs =>
    by_cases hc : c.isDigit = true
    · simp only [chompDigits, hc, if_true, Option.some.injEq] at h
      refine ⟨c :: cs.takeWhile Char.isDigit, by simp, ?_, ?_⟩
      · intro x hx
        rcases List.mem_cons.1 hx with hx | hx
        · exact hx ▸ hc
        · exact List.mem_takeWhile_imp hx
      · rw [← h]
        simp [List.takeWhile_append_dropWhile]
    · simp [chompDigits, hc] at h

/-- The dot is not a digit. -/
theorem dot_not_digit : ('.' : Char).isDigit = false := by decide

/-- The source's version test `/^\d+\.\d+\.\d+$/` succeeds exactly on the
strings claim C4 describes: three nonempty digit runs separated by
single dots. -/
theorem semverCheck_iff (s : String) : semverCheck s = true ↔ SemverShape s := by
  constructor
  · intro h
    unfold semverCheck at h
    split at h
    case _ r1 h1 =>
      split at h
      case _ r2 h2 =>
        split at h
        case _ h3 =>
          obtain ⟨a, ha, hda, hla⟩ := chompDigits_some_inv _ _ h1
          obtain ⟨bb, hb, hdb, hlb⟩ := chompDigits_some_inv _ _ h2
          obtain ⟨cc, hcne, hdc, hlc⟩ := chompDigits_some_inv _ _ h3
          refine ⟨a, bb, cc, ?_, ha, hb, hcne, hda, hdb, hdc⟩
          rw [hla, hlb, hlc]
          simp
        all_goals simp at h
      all_goals simp at h
    all_goals simp at h
  · rintro ⟨a, bb, cc, hd, ha, hb, hcne, hda, hdb, hdc⟩
    have h3 : chompDigits cc = some [] := by
      have h4 := chompDigits_some_of cc [] hcne hdc (fun c hc => by simp at hc)
      simpa using h4
    have h2 : chompDigits (bb ++ '.' :: cc) = some ('.' :: cc) :=
      chompDigits_some_of bb ('.' :: cc) hb hdb (fun c hc => by
        simp only [List.head?_cons, Option.some.injEq] at hc
        rw [← hc]; exact dot_not_digit)
    have h1 : chompDigits (a ++ '.' :: (bb ++ '.' :: cc)) =
        some ('.' :: (bb ++ '.' :: cc)) :=
      chompDigits_some_of a _ ha hda (fun c hc => by
        simp only [List.head?_cons, Option.some.injEq] at hc
        rw [← hc]; exact dot_not_digit)
    unfold semverCheck
    rw [hd]
    simp only [h1, h2, h3]

/-- Character data of an appended string is the appended data. -/
theorem data_append_eq (a b : String) : (a ++ b).data = a.data ++ b.data := by
  cases a
  cases b
  rfl

/-- The dynamic type error can never collide with the version error (the
first characters differ). -/
theorem typeErr_ne_versionErr (t : String) : typeErr t ≠ versionErr := by
  intro h
  have h2 : (typeErr t).data = versionErr.data := congrArg String.data h
  have e0 : (typeErr t).data =
      ("Invalid \"type\": ").data ++ (t.data ++ ((". Must be one of: ").data ++
        (String.intercalate (", ") ALLOWED_TYPES).data)) := by
    simp [typeErr, data_append_eq]
  rw [e0] at h2
  have e1 : ("Invalid \"type\": ").data = 'I' :: ("nvalid \"type\": ").data := rfl
  have e2 : versionErr.data =
      'M' :: ("issing or invalid \"version\" (must be semver x.y.z)").data := rfl
  rw [e1, e2, List.cons_append] at h2
  exact absurd (List.cons.inj h2).1 (by decide)

/-- The dynamic unknown-permissions error can never collide with the
version error. -/
theorem permErr_ne_versionErr (u : List String) : permErr u ≠ versionErr := by
  intro h
  have h2 : (permErr u).data = versionErr.data := congrArg String.data h
  have e0 : (permErr u).data =
      ("Unknown permissions: ").data ++ (String.intercalate (", ") u).data := by
    simp [permErr, data_append_eq]
  rw [e0] at h2
  have e1 : ("Unknown permissions: ").data = 'U' :: ("nknown permissions: ").data := rfl
  have e2 : versionErr.data =
      'M' :: ("issing or invalid \"version\" (must be semver x.y.z)").data := rfl
  rw [e1, e2, List.cons_append] at h2
  exact absurd (List.cons.inj h2).1 (by decide)

/-- The version error is reported exactly when the version field fails
the truthiness-plus-regex test of line 24. -/
theorem versionErr_mem_iff (m : Manifest) :
    versionErr ∈ (validateManifest m).errors ↔
      ¬(isTruthyStr m.version = true ∧ semverCheck (m.version.getD ("")) = true) := by
  have hty : ∀ t : String, versionErr ≠ typeErr t :=
    fun t h => typeErr_ne_versionErr t h.symm
  have hpe : ∀ u : List String, versionErr ≠ permErr u :=
    fun u h => permErr_ne_versionErr u h.symm
  simp only [validateManifest]
  constructor
  · intro h hok
    rcases hok with ⟨h1, h2⟩
    simp only [h1, h2, Bool.and_self, if_true] at h
    simp only [List.mem_append] at h
    rcases h with ((((((((h | h) | h) | h) | h) | h) | h) | h) | h) <;>
      first
        | (split at h <;> simp_all [versionErr, nameErr, descErr, authorErr,
            mainErr, nameLenErr, descLenErr])
        | simp_all [versionErr, nameErr, descErr, authorErr, mainErr,
            nameLenErr, descLenErr]
  · intro h
    have hfalse : (isTruthyStr m.version && semverCheck (m.version.getD (""))) = false := by
      cases ht : isTruthyStr m.version
      · simp
      · cases hs : semverCheck (m.version.getD (""))
        · simp
        · exact absurd ⟨ht, hs⟩ h
    simp only [hfalse, Bool.false_eq_true, if_false, List.mem_append]
    tauto

/-- C4: the version error is absent exactly when a version string is
present and consists of three nonempty digit runs separated by dots; in
particular `1.0.0` passes while `1.0`, `v1.0.0` and `1.0.0-beta` fail. -/
theorem c4_version_exactly_three_digit_runs :
    (∀ m : Manifest, versionErr ∉ (validateManifest m).errors ↔
      ∃ v, m.version = some v ∧ SemverShape v) ∧
    versionErr ∉ (validateManifest (mV ("1.0.0"))).errors ∧
    versionErr ∈ (validateManifest (mV ("1.0"))).errors ∧
    versionErr ∈ (validateManifest (mV ("v1.0.0"))).errors ∧
    versionErr ∈ (validateManifest (mV ("1.0.0-beta"))).errors := by
  refine ⟨?_, by decide, by decide, by decide, by decide⟩
  intro m
  constructor
  · intro hnot
    have hc : isTruthyStr m.version = true ∧
        semverCheck (m.version.getD ("")) = true := by
      by_contra hc
      exact hnot ((versionErr_mem_iff m).2 hc)
    rcases hc with ⟨h1, h2⟩
    cases hv : m.version with
    | none => rw [hv] at h1; simp [isTruthyStr] at h1
    | some v =>
      refine ⟨v, rfl, ?_⟩
      rw [hv] at h2
      exact (semverCheck_iff v).1 (by simpa using h2)
  · rintro ⟨v, hv, hshape⟩
    intro hmem
    apply (versionErr_mem_iff m).1 hmem
    have hne : v ≠ "" := by
      intro he
      rcases hshape with ⟨a, bb, cc, hd, ha, _⟩
      rw [he] at hd
      have h0 : ([] : List Char) = a ++ '.' :: (bb ++ '.' :: cc) := hd
      cases a <;> simp at h0
    constructor
    · rw [hv]
      simp [isTruthyStr, hne]
    · rw [hv]
      simpa using (semverCheck_iff v).2 hshape

/-! ## C7 — bounded walk, silent stop on signature mismatch -/

/-- C7: the central-directory walk completes at most the EOCD-declared
number of iterations, and a signature mismatch at the current cursor
stops it at once, returning the state parsed by the earlier iterations
with no error. -/
theorem c7_walk_bounded_and_stops :
    (∀ (b : Bytes) (n off : Nat) (st : ZipState), walkSteps b n off st ≤ n) ∧
    (∀ (b : Bytes) (n off : Nat) (st : ZipState) (v : Nat),
      readU32 b off = some v → v ≠ 0x02014b50 →
        walk b (n + 1) off st = st ∧ walkSteps b (n + 1) off st = 0) := by
  constructor
  · intro b n
    induction n with
    | zero => intro off st; simp [walkSteps]
    | succ n ih =>
      intro off st
      have H : ∀ (o : Nat) (s : ZipState), 1 + walkSteps b n o s ≤ n + 1 := by
        intro o s
        have := ih o s
        omega
      unfold walkSteps
      dsimp only
      repeat' split
      all_goals first
        | omega
        | exact H _ _
  · intro b n off st v hv hne
    have hb : (v != 0x02014b50) = true := by simpa [bne_iff_ne] using hne
    constructor
    · unfold walk
      rw [hv]
      simp [hb]
    · unfold walkSteps
      rw [hv]
      simp [hb]

/-- Witness for C7: a four-byte buffer whose first word is `0`, not the
central-directory signature, with declared entry count `1`. -/
theorem c7_witness :
    walk [0, 0, 0, 0] 1 0 ⟨none, []⟩ = ⟨none, []⟩ ∧
      walkSteps [0, 0, 0, 0] 1 0 ⟨none, []⟩ = 0 :=
  c7_walk_bounded_and_stops.2 [0, 0, 0, 0] 0 0 ⟨none, []⟩ 0 (by decide) (by decide)

/-- C1 counterexample: in `exBufC1` the first matching entry is
`a/manifest.json` whose local header declares DEFLATE (method 8), yet
the returned manifest is not `none` — it is the stored bytes of the
later matching entry `b/manifest.json` — while `a/manifest.json` also
appears in the file list. -/
theorem c1_counterexample :
    firstMatchAt exBufC1 = some (97 :: 47 :: mjBytes, some 8) ∧
    (parseZipContents exBufC1).1 = some [123, 125] ∧
    (97 :: 47 :: mjBytes) ∈ (parseZipContents exBufC1).2 := by decide
